import Mathlib

/-
  Verification development for the gamma-gamma absorption engine of agnpy
  (src/agnpy/absorption.py).

  The numeric code is embedded shallowly over the real numbers:
  numpy arrays become lists of reals, broadcast arithmetic becomes
  per-element arithmetic, and `np.trapz` becomes a recursive trapezoidal
  sum.  Physical constants (astropy, CGS magnitudes) become real literals.
  `np.empty` buffers are modelled by explicit functions supplying the
  uninitialized contents, and numpy item assignment `xs[k] = v` is
  modelled by an index-checked update that returns `none` on an
  out-of-bounds index (numpy raises IndexError there).
-/

namespace Agnpy

noncomputable section

/-! ### Physical constants (CGS magnitudes, as used through astropy) -/

/-- Thomson cross section in cm^2 (astropy `sigma_T` in cgs). -/
def sigma_T : ℝ := 6.6524587321e-25

/-- electron mass in g (astropy `m_e` in cgs). -/
def m_e : ℝ := 9.1093837015e-28

/-- speed of light in cm/s (astropy `c` in cgs). -/
def c : ℝ := 2.99792458e10

/-- Planck constant in erg s (astropy `h` in cgs). -/
def h_planck : ℝ := 6.62607015e-27

/-- electron rest energy in erg: `mec2 = m_e.to("erg")` in the source. -/
def mec2 : ℝ := m_e * c ^ 2

/-- one parsec in cm (astropy length conversion). -/
def pc_cm : ℝ := 3.0856775814913673e18

/-- `l_max = 3000 * u.pc` of `Absorption.set_l`, expressed in cm. -/
def l_max_cm : ℝ := 3000 * pc_cm

/-- the dimensionless energy of `epsilon_equivalency`:
`epsilon = h * nu / mec2`, already blueshifted to the black-hole frame by
the factor `(1 + z)` applied in each `_opacity_*` routine. -/
def epsilon1 (z nu : ℝ) : ℝ := h_planck * nu / mec2 * (1 + z)

/-! ### numpy grid constructors -/

/-- `np.linspace(start, stop, num)`: `num` samples `start + i * step` with
`step = (stop - start) / (num - 1)`.  Over the reals the last sample is
exactly `stop` whenever `num >= 2`; for `num = 1` the single sample is
`start` (division by zero yields step 0, matching numpy's `[start]`). -/
def linspace (start stop : ℝ) (num : ℕ) : List ℝ :=
  (List.range num).map (fun (i : ℕ) => start + (i : ℝ) * ((stop - start) / ((num : ℝ) - 1)))

/-- `np.logspace(start, stop, num)` = `10 ** np.linspace(start, stop, num)`. -/
def logspace (start stop : ℝ) (num : ℕ) : List ℝ :=
  (linspace start stop num).map (fun t => (10 : ℝ) ^ t)

/-! ### Cross-section evaluator `sigma` -/

/-- the value computed elementwise by `sigma` before the sub-threshold
masking `values[s < 1] = 0`: with `beta_cm = sqrt(1 - s⁻¹)`,
`3/16 σ_T (1 - β²) ((3 - β⁴) log((1+β)/(1-β)) + (-2β(2-β²)))`. -/
def sigmaRaw (s : ℝ) : ℝ :=
  let beta_cm := Real.sqrt (1 - s⁻¹)
  3 / 16 * sigma_T * (1 - beta_cm ^ 2) *
    ((3 - beta_cm ^ 4) * Real.log ((1 + beta_cm) / (1 - beta_cm)) +
      -2 * beta_cm * (2 - beta_cm ^ 2))

/-- the per-element result of `sigma` on an array: the raw formula with the
entries at `s < 1` overwritten by `0` (mask assignment `values[s < 1] = 0`). -/
def sigmaVal (s : ℝ) : ℝ :=
  if s < 1 then 0 else sigmaRaw s

/-- the array branch of `sigma`: compute `sigmaRaw` elementwise, then the
boolean-mask item assignment `values[s < 1] = 0` zeroes exactly the
entries whose input is below threshold. -/
def sigma_arr (xs : List ℝ) : List ℝ :=
  ((xs.zip (xs.map sigmaRaw)).map (fun p => if p.1 < 1 then 0 else p.2))

/-- a numpy value: either a scalar (0-dimensional — a Python float fed
through the formula yields a 0-d `Quantity`, since `sigma_T` is an astropy
`Quantity` wrapping an ndarray) or a 1-dimensional array. -/
inductive NpVal : Type
  | scalar (x : ℝ) : NpVal
  | arr (xs : List ℝ) : NpVal

/-- `sigma` as the source defines it on a numpy value.  All arithmetic up
to `values` is shape-generic; the final statement `values[s < 1] = 0` is a
boolean-mask item assignment.  On a 1-d array it zeroes the sub-threshold
entries.  On a scalar input `values` is a 0-dimensional `Quantity`
(ndarray-backed, because `sigma_T` is a `Quantity`), and numpy accepts a
boolean-scalar mask there: `values[True] = 0` assigns the single element
(the `s < 1` case), `values[False] = 0` is a no-op (the `s ≥ 1` case), so
the call returns the same piecewise value a one-element array would get. -/
def sigma : NpVal → NpVal
  | NpVal.scalar x => NpVal.scalar (if x < 1 then 0 else sigmaRaw x)
  | NpVal.arr xs => NpVal.arr (sigma_arr xs)

/-! ### Geometry helpers

The helpers `cos_psi`, `x_re_shell`, `x_re_ring` and `mu_star` are imported
from `agnpy.compton`, whose file is not part of the sources at hand; they
are modelled from the spec. -/

/-- Modelled from the spec: `cos_psi` of `agnpy.compton` — the cosine of
the angle between the two photon directions via the spherical law of
cosines, `cosψ = μ₁μ₂ + sqrt(1-μ₁²) sqrt(1-μ₂²) cosφ`. -/
def cos_psi (mu_s mu phi : ℝ) : ℝ :=
  mu_s * mu + Real.sqrt (1 - mu_s ^ 2) * Real.sqrt (1 - mu ^ 2) * Real.cos phi

/-- Modelled from the spec: `x_re_shell` of `agnpy.compton` — distance
from a point on a shell of radius `R` to the field point at height `l`,
law of cosines `x = sqrt(R² + l² - 2 R l μ)`. -/
def x_re_shell (mu R_re l : ℝ) : ℝ :=
  Real.sqrt (R_re ^ 2 + l ^ 2 - 2 * R_re * l * mu)

/-- Modelled from the spec: `x_re_ring` of `agnpy.compton` — distance from
a point on a ring of radius `R` (orthogonal to the jet axis) to the field
point at height `l`: `x = sqrt(R² + l²)`. -/
def x_re_ring (R_re l : ℝ) : ℝ :=
  Real.sqrt (R_re ^ 2 + l ^ 2)

/-- Modelled from the spec: `mu_star` of `agnpy.compton` — cosine of the
angle under which the shell-emission point is seen from the field point,
`μ* = (l - R μ) / x` with `x = x_re_shell μ R l`. -/
def mu_star (mu R_re l : ℝ) : ℝ :=
  (l - R_re * mu) / x_re_shell mu R_re l

/-! ### Data model -/

/-- the emission region; only the fields the absorption engine reads. -/
structure Blob where
  z : ℝ
  mu_s : ℝ

/-- Modelled from the spec: the `SSDisk` target of `agnpy.targets`
(file not among the sources).  Carries the parameters and the three
geometric/radiative methods the disk integrand calls. -/
structure SSDisk where
  R_g : ℝ
  L_disk : ℝ
  eta : ℝ
  mu_from_r_tilde : ℝ → List ℝ
  epsilon_mu : ℝ → ℝ → ℝ
  phi_disk_mu : ℝ → ℝ → ℝ

/-- the `SphericalShellBLR` target parameters read by the engine. -/
structure SphericalShellBLR where
  xi_line : ℝ
  L_disk : ℝ
  R_line : ℝ
  epsilon_line : ℝ

/-- the `RingDustTorus` target parameters read by the engine. -/
structure RingDustTorus where
  xi_dt : ℝ
  L_disk : ℝ
  R_dt : ℝ
  epsilon_dt : ℝ

/-- the target photon field held by an `Absorption` instance: one of the
three supported classes, or any other Python object (`unsupported`),
against which every `isinstance` test of the dispatch fails. -/
inductive Target : Type
  | disk (d : SSDisk) : Target
  | shell (sh : SphericalShellBLR) : Target
  | ring (rt : RingDustTorus) : Target
  | unsupported : Target

/-- the `Absorption` instance state: constructor arguments plus the three
integration grids and their sizes (`r` and `l` are magnitudes in cm). -/
structure Absorption where
  blob : Blob
  target : Target
  r : ℝ
  mu_size : ℕ
  mu : List ℝ
  phi_size : ℕ
  phi : List ℝ
  l_size : ℕ
  l : List ℝ

/-- `Absorption.set_mu`: `self.mu = np.linspace(-1, 1, mu_size)`. -/
def Absorption.set_mu (A : Absorption) (mu_size : ℕ) : Absorption :=
  { A with mu_size := mu_size, mu := linspace (-1) 1 mu_size }

/-- `Absorption.set_phi`: `self.phi = np.linspace(0, 2 * np.pi, phi_size)`. -/
def Absorption.set_phi (A : Absorption) (phi_size : ℕ) : Absorption :=
  { A with phi_size := phi_size, phi := linspace 0 (2 * Real.pi) phi_size }

/-- `Absorption.set_l`: `self.l = np.logspace(log10(r_cm), log10(3000 pc), l_size) * u.cm`. -/
def Absorption.set_l (A : Absorption) (l_size : ℕ) : Absorption :=
  { A with l_size := l_size,
           l := logspace (Real.logb 10 A.r) (Real.logb 10 l_max_cm) l_size }

/-- `Absorption.__init__`: store the arguments, then `set_mu()`,
`set_phi()`, `set_l()` with their default sizes 100, 50, 10. -/
def mkAbsorption (blob : Blob) (target : Target) (r : ℝ) : Absorption :=
  (((⟨blob, target, r, 0, [], 0, [], 0, []⟩ : Absorption).set_mu 100).set_phi 50).set_l 10

/-! ### Trapezoidal integration -/

/-- `np.trapz(y, x)` on 1-d arrays: sum of `(x[k+1] - x[k]) * (y[k] + y[k+1]) / 2`. -/
def trapz : List ℝ → List ℝ → ℝ
  | y0 :: y1 :: ys, x0 :: x1 :: xs => (x1 - x0) * (y0 + y1) / 2 + trapz (y1 :: ys) (x1 :: xs)
  | _, _ => 0

/-- trapezoidal integration of a function sampled on the grid `xs`:
the axiswise `np.trapz(f(grid), grid, axis=...)` of the broadcast code. -/
def trapzF (f : ℝ → ℝ) (xs : List ℝ) : ℝ :=
  trapz (xs.map f) xs

/-! ### The three opacity routines and the `tau` dispatch -/

/-- checked item assignment `xs[k] = v` on a numpy 1-d array: in-range
updates the entry, out-of-range raises IndexError (modelled as `none`). -/
def npSet (xs : List ℝ) (k : ℕ) (v : ℝ) : Option (List ℝ) :=
  if k < xs.length then some (xs.set k v) else none

/-- `Absorption._opacity_disk`, loop structure included verbatim:
`integral = np.empty(len(epsilon_1))` (uninitialized contents `g`), and
for each frequency index `i` a fresh `integrand_l = np.empty(len(self.l))`
(uninitialized contents `gl`); the inner loop over `j` stores each
`integral_phi` at index `i` (sic) of `integrand_l`, and after it the code
stores `np.trapz(integrand_l, self.l)` at index `j` (sic) of `integral`,
where `j` still holds its final value `len(self.l) - 1` (the model assumes
`self.l` is non-empty, as every `set_l` call with positive size ensures;
on an empty `self.l` the Python code would raise NameError instead).
The surviving buffer is finally scaled elementwise by
`3 L_disk R_g / (16 π η m_e c³)` (`tau = prefactor_num / prefactor_denum *
integral`).  Returns `none` where numpy would raise IndexError. -/
def opacity_disk (g gl : ℕ → ℝ) (A : Absorption) (d : SSDisk) (nu : List ℝ) :
    Option (List ℝ) :=
  let eps1 := nu.map (fun v => epsilon1 A.blob.z v)
  Option.map
    (fun integral => integral.map (fun x =>
      3 * d.L_disk * d.R_g / (16 * Real.pi * d.eta * m_e * c ^ 3) * x))
    ((List.range eps1.length).foldlM
    (fun integral i =>
      let e1 := eps1.getD i 0
      let buf0 := (List.range A.l.length).map gl
      do
        let buf ← (List.range A.l.length).foldlM
          (fun acc j =>
            let lv := A.l.getD j 0
            let l_tilde := lv / d.R_g
            let mus := d.mu_from_r_tilde l_tilde
            let integral_phi := trapzF (fun phiv =>
                trapzF (fun muv =>
                    let eps := d.epsilon_mu muv l_tilde
                    let cps := cos_psi A.blob.mu_s muv phiv
                    let s := e1 * eps * (1 - cps) / 2
                    d.phi_disk_mu muv l_tilde /
                        (eps * lv ^ 3 * muv * ((muv ^ 2)⁻¹ - 1) ^ ((3 : ℝ) / 2)) *
                      (1 - cps) * sigmaVal s)
                  mus)
              A.phi
            npSet acc i integral_phi)
          buf0
        npSet integral (A.l.length - 1) (trapz buf A.l))
    ((List.range eps1.length).map g))

/-- the differential integrand of `_opacity_shell_blr` at one grid point:
`(1 - cosψ) x⁻² σ(s)` with `x = x_re_shell(μ, R_line, l)`,
`μ* = mu_star(μ, R_line, l)`, `cosψ = cos_psi(μ_s, μ*, φ)` and
`s = ε₁ ε_line (1 - cosψ)/2`. -/
def shell_integrand (mu_s R_line epsilon_line e1 lv phiv muv : ℝ) : ℝ :=
  let x := x_re_shell muv R_line lv
  let ms := mu_star muv R_line lv
  let cps := cos_psi mu_s ms phiv
  let s := e1 * epsilon_line * (1 - cps) / 2
  (1 - cps) * (x ^ 2)⁻¹ * sigmaVal s

/-- the triple trapezoidal reduction of `_opacity_shell_blr` for one
frequency: `np.trapz` over `mu` (axis 0), then `phi`, then `l`. -/
def shell_integral (A : Absorption) (sh : SphericalShellBLR) (e1 : ℝ) : ℝ :=
  trapzF (fun lv =>
      trapzF (fun phiv =>
          trapzF (fun muv =>
              shell_integrand A.blob.mu_s sh.R_line sh.epsilon_line e1 lv phiv muv)
            A.mu)
        A.phi)
    A.l

/-- `Absorption._opacity_shell_blr`: the 4-d broadcast grid reduced by
`np.trapz` over `mu` (axis 0), then `phi`, then `l` (the fourth,
frequency axis survives, giving one value per input frequency), scaled by
`xi_line L_disk / ((4π)² ε_line m_e c³)`. -/
def opacity_shell_blr (A : Absorption) (sh : SphericalShellBLR) (nu : List ℝ) :
    List ℝ :=
  nu.map (fun v =>
    sh.xi_line * sh.L_disk / ((4 * Real.pi) ^ 2 * sh.epsilon_line * m_e * c ^ 3) *
      shell_integral A sh (epsilon1 A.blob.z v))

/-- the differential integrand of `_opacity_ring_torus` at one grid point:
`x = x_re_ring(R_dt, l)`, `μ = l / x`, `cosψ = cos_psi(μ_s, μ, φ)`,
`s = ε₁ ε_dt (1 - cosψ)/2`, value `(1 - cosψ) x⁻² σ(s)`. -/
def ring_integrand (mu_s R_dt epsilon_dt e1 lv phiv : ℝ) : ℝ :=
  let x := x_re_ring R_dt lv
  let muv := lv / x
  let cps := cos_psi mu_s muv phiv
  let s := e1 * epsilon_dt * (1 - cps) / 2
  (1 - cps) * (x ^ 2)⁻¹ * sigmaVal s

/-- the double trapezoidal reduction of `_opacity_ring_torus` for one
frequency: `np.trapz` over `phi` (axis 0), then `l`. -/
def ring_integral (A : Absorption) (rt : RingDustTorus) (e1 : ℝ) : ℝ :=
  trapzF (fun lv =>
      trapzF (fun phiv =>
          ring_integrand A.blob.mu_s rt.R_dt rt.epsilon_dt e1 lv phiv)
        A.phi)
    A.l

/-- `Absorption._opacity_ring_torus`: the 3-d broadcast grid reduced by
`np.trapz` over `phi` (axis 0) then `l`, scaled by
`xi_dt L_disk / ((4π)² ε_dt m_e c³)`. -/
def opacity_ring_torus (A : Absorption) (rt : RingDustTorus) (nu : List ℝ) :
    List ℝ :=
  nu.map (fun v =>
    rt.xi_dt * rt.L_disk / ((4 * Real.pi) ^ 2 * rt.epsilon_dt * m_e * c ^ 3) *
      ring_integral A rt (epsilon1 A.blob.z v))

/-- `Absorption.tau`: three `isinstance` tests route to the matching
opacity routine; when none matches, control falls off the end of the
method and Python returns `None` (`Except.ok none` here).  A numpy
IndexError escaping `_opacity_disk` is `Except.error "IndexError"`;
the uninitialized-buffer contents `g`, `gl` of the disk branch are
explicit parameters. -/
def Absorption.tau (g gl : ℕ → ℝ) (A : Absorption) (nu : List ℝ) :
    Except String (Option (List ℝ)) :=
  match A.target with
  | Target.disk d =>
      match opacity_disk g gl A d nu with
      | some xs => Except.ok (some xs)
      | none => Except.error "IndexError"
  | Target.shell sh => Except.ok (some (opacity_shell_blr A sh nu))
  | Target.ring rt => Except.ok (some (opacity_ring_torus A rt nu))
  | Target.unsupported => Except.ok none

/-! ### Grid lemmas -/

theorem linspace_length (a b : ℝ) (n : ℕ) : (linspace a b n).length = n := by
  simp [linspace]

theorem linspace_getD (a b : ℝ) {n i : ℕ} (h : i < n) :
    (linspace a b n).getD i 0 = a + (i : ℝ) * ((b - a) / ((n : ℝ) - 1)) := by
  rw [linspace, List.getD_eq_getElem?_getD]
  simp [List.getElem?_map, List.getElem?_range h]

theorem linspace_head (a b : ℝ) {n : ℕ} (h : 0 < n) :
    (linspace a b n).head? = some a := by
  obtain ⟨m, rfl⟩ : ∃ m, n = m + 1 := ⟨n - 1, (Nat.succ_pred_eq_of_pos h).symm⟩
  simp [linspace, List.range_succ_eq_map]

theorem linspace_getLast (a b : ℝ) {n : ℕ} (h : 2 ≤ n) :
    (linspace a b n).getLast? = some b := by
  obtain ⟨m, rfl⟩ : ∃ m, n = m + 1 := ⟨n - 1, (Nat.succ_pred_eq_of_pos (by omega)).symm⟩
  have hm : (m : ℝ) ≠ 0 := by
    have : 0 < m := by omega
    exact_mod_cast this.ne'
  rw [linspace, List.range_succ, List.map_append]
  simp only [List.map_cons, List.map_nil, List.getLast?_concat]
  congr 1
  have : ((m + 1 : ℕ) : ℝ) - 1 = (m : ℝ) := by push_cast; ring
  rw [this]
  field_simp

theorem linspace_mem {a b x : ℝ} {n : ℕ} (hab : a ≤ b) (hx : x ∈ linspace a b n) :
    a ≤ x ∧ x ≤ b := by
  rw [linspace, List.mem_map] at hx
  obtain ⟨i, hi, rfl⟩ := hx
  rw [List.mem_range] at hi
  match n with
  | 0 => omega
  | 1 =>
    interval_cases i
    simp [hab]
  | (m + 2) =>
    have hd : (0 : ℝ) < ((m + 2 : ℕ) : ℝ) - 1 := by push_cast; linarith
    have hdne : ((m + 2 : ℕ) : ℝ) - 1 ≠ 0 := ne_of_gt hd
    have hs : 0 ≤ (b - a) / (((m + 2 : ℕ) : ℝ) - 1) := by
      apply div_nonneg (by linarith) hd.le
    constructor
    · nlinarith [mul_nonneg (Nat.cast_nonneg i : (0:ℝ) ≤ i) hs]
    · have hi' : (i : ℝ) ≤ ((m + 2 : ℕ) : ℝ) - 1 := by
        have h3 : (i : ℝ) ≤ ((m : ℕ) : ℝ) + 1 := by
          have : i ≤ m + 1 := by omega
          exact_mod_cast this
        push_cast
        linarith
      have h1 : (i : ℝ) * ((b - a) / (((m + 2 : ℕ) : ℝ) - 1)) ≤
          (((m + 2 : ℕ) : ℝ) - 1) * ((b - a) / (((m + 2 : ℕ) : ℝ) - 1)) :=
        mul_le_mul_of_nonneg_right hi' hs
      have h2 : (((m + 2 : ℕ) : ℝ) - 1) * ((b - a) / (((m + 2 : ℕ) : ℝ) - 1)) = b - a := by
        rw [← mul_div_assoc]
        exact mul_div_cancel_left₀ _ hdne
      linarith

theorem linspace_chain_le {a b : ℝ} (hab : a ≤ b) (n : ℕ) :
    List.Chain' (· ≤ ·) (linspace a b n) := by
  match n with
  | 0 => simp [linspace]
  | 1 => simp [linspace]
  | (m + 2) =>
    rw [linspace]
    apply List.Pairwise.chain'
    rw [List.pairwise_map]
    apply (List.pairwise_lt_range _).imp
    intro i j hij
    have hd : (0 : ℝ) < ((m + 2 : ℕ) : ℝ) - 1 := by push_cast; linarith
    have hs : 0 ≤ (b - a) / (((m + 2 : ℕ) : ℝ) - 1) := div_nonneg (by linarith) hd.le
    have : (i : ℝ) ≤ (j : ℝ) := by exact_mod_cast hij.le
    nlinarith

theorem logspace_length (a b : ℝ) (n : ℕ) : (logspace a b n).length = n := by
  simp [logspace, linspace_length]

theorem logspace_head {a b : ℝ} {n : ℕ} (h : 0 < n) :
    (logspace a b n).head? = some ((10 : ℝ) ^ a) := by
  obtain ⟨m, rfl⟩ : ∃ m, n = m + 1 := ⟨n - 1, (Nat.succ_pred_eq_of_pos h).symm⟩
  simp [logspace, linspace, List.range_succ_eq_map]

theorem logspace_getLast {a b : ℝ} {n : ℕ} (h : 2 ≤ n) :
    (logspace a b n).getLast? = some ((10 : ℝ) ^ b) := by
  rw [logspace, List.getLast?_map, linspace_getLast a b h]
  rfl

theorem logspace_pairwise_lt {a b : ℝ} (hab : a < b) {n : ℕ} :
    List.Pairwise (· < ·) (logspace a b n) := by
  match n with
  | 0 => simp [logspace, linspace]
  | 1 => simp [logspace, linspace]
  | (m + 2) =>
    rw [logspace, linspace, List.map_map, List.pairwise_map]
    apply (List.pairwise_lt_range _).imp
    intro i j hij
    simp only [Function.comp]
    rw [Real.rpow_lt_rpow_left_iff (by norm_num)]
    have hd : (0 : ℝ) < ((m + 2 : ℕ) : ℝ) - 1 := by push_cast; linarith
    have hs : 0 < (b - a) / (((m + 2 : ℕ) : ℝ) - 1) := div_pos (by linarith) hd
    have : (i : ℝ) < (j : ℝ) := by exact_mod_cast hij
    nlinarith

theorem logspace_chain_le {a b : ℝ} (hab : a ≤ b) (n : ℕ) :
    List.Chain' (· ≤ ·) (logspace a b n) := by
  rcases eq_or_lt_of_le hab with rfl | hlt
  · rw [logspace]
    apply List.Pairwise.chain'
    rw [linspace, List.map_map, List.pairwise_map]
    apply (List.pairwise_lt_range n).imp
    intro i j _
    simp [Function.comp, sub_self]
  · exact ((logspace_pairwise_lt hlt).imp fun h => le_of_lt h).chain'

theorem linspace_step (a b : ℝ) {n i : ℕ} (h : i + 1 < n) :
    (linspace a b n).getD (i + 1) 0 - (linspace a b n).getD i 0 =
      (b - a) / ((n : ℝ) - 1) := by
  rw [linspace_getD a b h, linspace_getD a b (by omega)]
  push_cast
  ring

theorem getD_map (f : ℝ → ℝ) {nu : List ℝ} {k : ℕ} (h : k < nu.length) :
    (nu.map f).getD k 0 = f (nu.getD k 0) := by
  rw [List.getD_eq_getElem?_getD, List.getD_eq_getElem?_getD, List.getElem?_map,
    List.getElem?_eq_getElem h]
  rfl

/-! ### Trapezoid lemmas -/

theorem trapzF_cons_cons (f : ℝ → ℝ) (x y : ℝ) (rest : List ℝ) :
    trapzF f (x :: y :: rest) = (y - x) * (f x + f y) / 2 + trapzF f (y :: rest) := rfl

theorem trapzF_nonneg (f : ℝ → ℝ) :
    ∀ xs : List ℝ, List.Chain' (· ≤ ·) xs → (∀ x ∈ xs, 0 ≤ f x) → 0 ≤ trapzF f xs
  | [], _, _ => le_of_eq rfl
  | [_], _, _ => le_of_eq rfl
  | x :: y :: rest, hc, hf => by
    have hxy : x ≤ y := (List.chain'_cons.mp hc).1
    have ih := trapzF_nonneg f (y :: rest) (List.chain'_cons.mp hc).2
      (fun z hz => hf z (List.mem_cons_of_mem x hz))
    have h0 : 0 ≤ f x := hf x (List.mem_cons_self _ _)
    have h1 : 0 ≤ f y := hf y (List.mem_cons_of_mem x (List.mem_cons_self _ _))
    rw [trapzF_cons_cons]
    have hstep : 0 ≤ (y - x) * (f x + f y) / 2 :=
      div_nonneg (mul_nonneg (by linarith) (by linarith)) (by norm_num)
    linarith

theorem trapzF_eq_zero (f : ℝ → ℝ) :
    ∀ xs : List ℝ, (∀ x ∈ xs, f x = 0) → trapzF f xs = 0
  | [], _ => rfl
  | [_], _ => rfl
  | x :: y :: rest, hf => by
    rw [trapzF_cons_cons, trapzF_eq_zero f (y :: rest)
        (fun z hz => hf z (List.mem_cons_of_mem x hz)),
      hf x (List.mem_cons_self _ _), hf y (List.mem_cons_of_mem x (List.mem_cons_self _ _))]
    ring

/-! ### Cross-section lemmas -/

theorem sigma_T_pos : 0 < sigma_T := by norm_num [sigma_T]

theorem sigmaRaw_eq (s : ℝ) :
    sigmaRaw s =
      3 / 16 * sigma_T * (1 - Real.sqrt (1 - s⁻¹) ^ 2) *
        ((3 - Real.sqrt (1 - s⁻¹) ^ 4) *
            Real.log ((1 + Real.sqrt (1 - s⁻¹)) / (1 - Real.sqrt (1 - s⁻¹))) +
          -2 * Real.sqrt (1 - s⁻¹) * (2 - Real.sqrt (1 - s⁻¹) ^ 2)) := rfl

theorem sigmaRaw_nonneg {s : ℝ} (hs : 1 ≤ s) : 0 ≤ sigmaRaw s := by
  have hs0 : (0 : ℝ) < s := lt_of_lt_of_le one_pos hs
  have hinv0 : 0 < s⁻¹ := inv_pos.mpr hs0
  have hinv1 : s⁻¹ ≤ 1 := by
    rw [show (1 : ℝ) = 1⁻¹ by norm_num]
    exact inv_anti₀ one_pos hs
  set b := Real.sqrt (1 - s⁻¹) with hbdef
  have hb0 : 0 ≤ b := Real.sqrt_nonneg _
  have hb2 : b ^ 2 = 1 - s⁻¹ := Real.sq_sqrt (by linarith)
  have hb2lt : b ^ 2 < 1 := by rw [hb2]; linarith
  have hb1 : b < 1 := by nlinarith
  have hq : (0 : ℝ) < (1 - b) / (1 + b) := div_pos (by linarith) (by linarith)
  have hlog : Real.log ((1 - b) / (1 + b)) ≤ (1 - b) / (1 + b) - 1 :=
    Real.log_le_sub_one_of_pos hq
  have hloginv : Real.log ((1 + b) / (1 - b)) = -Real.log ((1 - b) / (1 + b)) := by
    rw [← Real.log_inv, inv_div]
  have hqid : (1 - b) / (1 + b) - 1 = -(2 * b / (1 + b)) := by
    field_simp
    ring
  have hLlb : 2 * b / (1 + b) ≤ Real.log ((1 + b) / (1 - b)) := by
    rw [hloginv]
    rw [hqid] at hlog
    linarith
  have h3b4 : 0 ≤ 3 - b ^ 4 := by nlinarith
  have hkey : (3 - b ^ 4) * (2 * b / (1 + b)) - 2 * b * (2 - b ^ 2) =
      2 * b * (1 - b) * (1 - b + b ^ 3) / (1 + b) := by
    field_simp
    ring
  have hkey0 : 0 ≤ 2 * b * (1 - b) * (1 - b + b ^ 3) / (1 + b) := by
    apply div_nonneg _ (by linarith)
    have hcube : 0 ≤ b ^ 3 := by positivity
    apply mul_nonneg (mul_nonneg (by linarith) (by linarith)) (by nlinarith)
  have hmul := mul_le_mul_of_nonneg_left hLlb h3b4
  have hbr : 0 ≤ (3 - b ^ 4) * Real.log ((1 + b) / (1 - b)) +
      -2 * b * (2 - b ^ 2) := by nlinarith
  have hpref : 0 ≤ 3 / 16 * sigma_T * (1 - b ^ 2) := by
    have := sigma_T_pos
    nlinarith
  rw [sigmaRaw_eq, ← hbdef]
  exact mul_nonneg hpref hbr

theorem sigmaVal_nonneg (s : ℝ) : 0 ≤ sigmaVal s := by
  rw [sigmaVal]
  split
  · exact le_refl 0
  · exact sigmaRaw_nonneg (le_of_not_lt (by assumption))

theorem sigmaVal_of_lt {s : ℝ} (h : s < 1) : sigmaVal s = 0 := by
  rw [sigmaVal, if_pos h]

theorem sigmaVal_of_le {s : ℝ} (h : 1 ≤ s) : sigmaVal s = sigmaRaw s := by
  rw [sigmaVal, if_neg (not_lt.mpr h)]

theorem sigmaRaw_of_mem_Ioo {s : ℝ} (h0 : 0 < s) (h1 : s < 1) : sigmaRaw s = 0 := by
  have hneg : 1 - s⁻¹ ≤ 0 := by
    have : (1 : ℝ) < s⁻¹ := (one_lt_inv₀ h0).mpr h1
    linarith
  have hsqrt : Real.sqrt (1 - s⁻¹) = 0 := Real.sqrt_eq_zero'.mpr hneg
  rw [sigmaRaw_eq, hsqrt]
  norm_num [Real.log_one]

theorem sigma_arr_eq_map : ∀ xs : List ℝ, sigma_arr xs = xs.map sigmaVal
  | [] => rfl
  | x :: rest => by
    have ih := sigma_arr_eq_map rest
    show (if x < 1 then (0 : ℝ) else sigmaRaw x) :: sigma_arr rest =
      sigmaVal x :: rest.map sigmaVal
    rw [ih, sigmaVal]

/-! ### Geometry bounds -/

theorem abs_cos_psi_le_one {a m φ : ℝ} (ha : a ^ 2 ≤ 1) (hm : m ^ 2 ≤ 1) :
    |cos_psi a m φ| ≤ 1 := by
  rw [cos_psi]
  have h1a : (0 : ℝ) ≤ 1 - a ^ 2 := by linarith
  have h1m : (0 : ℝ) ≤ 1 - m ^ 2 := by linarith
  set sa := Real.sqrt (1 - a ^ 2) with hsa
  set sb := Real.sqrt (1 - m ^ 2) with hsb
  have hsa0 : 0 ≤ sa := Real.sqrt_nonneg _
  have hsb0 : 0 ≤ sb := Real.sqrt_nonneg _
  have hsa2 : sa ^ 2 = 1 - a ^ 2 := Real.sq_sqrt h1a
  have hsb2 : sb ^ 2 = 1 - m ^ 2 := Real.sq_sqrt h1m
  have hcos : |Real.cos φ| ≤ 1 := Real.abs_cos_le_one φ
  have hcos0 : 0 ≤ |Real.cos φ| := abs_nonneg _
  have key : |a * m| + sa * sb ≤ 1 := by
    have h2 : 0 ≤ (|a| * sb - |m| * sa) ^ 2 := sq_nonneg _
    have haa : |a| ^ 2 = a ^ 2 := sq_abs a
    have hmm : |m| ^ 2 = m ^ 2 := sq_abs m
    have habs0 : 0 ≤ |a| := abs_nonneg a
    have hmbs0 : 0 ≤ |m| := abs_nonneg m
    have hlhs : (|a * m| + sa * sb) ^ 2 ≤ 1 := by
      rw [abs_mul]
      nlinarith
    nlinarith [abs_nonneg (a * m), mul_nonneg hsa0 hsb0]
  calc |a * m + sa * sb * Real.cos φ|
      ≤ |a * m| + |sa * sb * Real.cos φ| := abs_add _ _
    _ = |a * m| + sa * sb * |Real.cos φ| := by
        rw [abs_mul (sa * sb) (Real.cos φ), abs_of_nonneg (mul_nonneg hsa0 hsb0)]
    _ ≤ |a * m| + sa * sb := by nlinarith [mul_nonneg hsa0 hsb0]
    _ ≤ 1 := key

theorem mu_star_sq_le_one {mu R l : ℝ} (hmu : mu ^ 2 ≤ 1) :
    (mu_star mu R l) ^ 2 ≤ 1 := by
  rw [mu_star]
  rcases eq_or_ne (x_re_shell mu R l) 0 with hx | hx
  · rw [hx]
    norm_num
  · have harg : 0 ≤ R ^ 2 + l ^ 2 - 2 * R * l * mu := by
      nlinarith [sq_nonneg (l - R * mu), mul_nonneg (sq_nonneg R) (by linarith : (0:ℝ) ≤ 1 - mu ^ 2)]
    have hx2 : (x_re_shell mu R l) ^ 2 = R ^ 2 + l ^ 2 - 2 * R * l * mu := by
      rw [x_re_shell]
      exact Real.sq_sqrt harg
    have hxpos : 0 < x_re_shell mu R l :=
      lt_of_le_of_ne (Real.sqrt_nonneg _) (Ne.symm hx)
    rw [div_pow, div_le_one (by positivity), hx2]
    nlinarith [mul_nonneg (sq_nonneg R) (by linarith : (0:ℝ) ≤ 1 - mu ^ 2)]

theorem ring_mu_sq_le_one (R l : ℝ) : (l / x_re_ring R l) ^ 2 ≤ 1 := by
  rcases eq_or_ne (x_re_ring R l) 0 with hx | hx
  · rw [hx]
    norm_num
  · have harg : (0:ℝ) ≤ R ^ 2 + l ^ 2 := by positivity
    have hx2 : (x_re_ring R l) ^ 2 = R ^ 2 + l ^ 2 := by
      rw [x_re_ring]
      exact Real.sq_sqrt harg
    have hxpos : 0 < x_re_ring R l :=
      lt_of_le_of_ne (Real.sqrt_nonneg _) (Ne.symm hx)
    rw [div_pow, div_le_one (by positivity), hx2]
    nlinarith [sq_nonneg R]

/-! ### Integrand and integral signs -/

theorem shell_integrand_nonneg {mu_s R_line epsilon_line e1 lv phiv muv : ℝ}
    (hmus : mu_s ^ 2 ≤ 1) (hmuv : muv ^ 2 ≤ 1) :
    0 ≤ shell_integrand mu_s R_line epsilon_line e1 lv phiv muv := by
  rw [shell_integrand]
  have hms : (mu_star muv R_line lv) ^ 2 ≤ 1 := mu_star_sq_le_one hmuv
  have hcps : |cos_psi mu_s (mu_star muv R_line lv) phiv| ≤ 1 :=
    abs_cos_psi_le_one hmus hms
  have h1 : 0 ≤ 1 - cos_psi mu_s (mu_star muv R_line lv) phiv := by
    have := abs_le.mp hcps
    linarith [this.2]
  exact mul_nonneg (mul_nonneg h1 (by positivity)) (sigmaVal_nonneg _)

theorem ring_integrand_nonneg {mu_s R_dt epsilon_dt e1 lv phiv : ℝ}
    (hmus : mu_s ^ 2 ≤ 1) :
    0 ≤ ring_integrand mu_s R_dt epsilon_dt e1 lv phiv := by
  rw [ring_integrand]
  have hm : (lv / x_re_ring R_dt lv) ^ 2 ≤ 1 := ring_mu_sq_le_one _ _
  have hcps : |cos_psi mu_s (lv / x_re_ring R_dt lv) phiv| ≤ 1 :=
    abs_cos_psi_le_one hmus hm
  have h1 : 0 ≤ 1 - cos_psi mu_s (lv / x_re_ring R_dt lv) phiv := by
    have := abs_le.mp hcps
    linarith [this.2]
  exact mul_nonneg (mul_nonneg h1 (by positivity)) (sigmaVal_nonneg _)

theorem shell_integral_nonneg (A : Absorption) (sh : SphericalShellBLR) (e1 : ℝ)
    (hmus : A.blob.mu_s ^ 2 ≤ 1) (hmu : ∀ x ∈ A.mu, x ^ 2 ≤ 1)
    (hmuc : List.Chain' (· ≤ ·) A.mu) (hphic : List.Chain' (· ≤ ·) A.phi)
    (hlc : List.Chain' (· ≤ ·) A.l) :
    0 ≤ shell_integral A sh e1 := by
  rw [shell_integral]
  apply trapzF_nonneg _ _ hlc
  intro lv _
  apply trapzF_nonneg _ _ hphic
  intro phiv _
  apply trapzF_nonneg _ _ hmuc
  intro muv hmuv
  exact shell_integrand_nonneg hmus (hmu muv hmuv)

theorem ring_integral_nonneg (A : Absorption) (rt : RingDustTorus) (e1 : ℝ)
    (hmus : A.blob.mu_s ^ 2 ≤ 1) (hphic : List.Chain' (· ≤ ·) A.phi)
    (hlc : List.Chain' (· ≤ ·) A.l) :
    0 ≤ ring_integral A rt e1 := by
  rw [ring_integral]
  apply trapzF_nonneg _ _ hlc
  intro lv _
  apply trapzF_nonneg _ _ hphic
  intro phiv _
  exact ring_integrand_nonneg hmus

/-! ### Constructed-instance facts -/

theorem mkAbsorption_mu (blob : Blob) (target : Target) (r : ℝ) :
    (mkAbsorption blob target r).mu = linspace (-1) 1 100 := rfl

theorem mkAbsorption_phi (blob : Blob) (target : Target) (r : ℝ) :
    (mkAbsorption blob target r).phi = linspace 0 (2 * Real.pi) 50 := rfl

theorem mkAbsorption_l (blob : Blob) (target : Target) (r : ℝ) :
    (mkAbsorption blob target r).l =
      logspace (Real.logb 10 r) (Real.logb 10 l_max_cm) 10 := rfl

theorem mkAbsorption_blob (blob : Blob) (target : Target) (r : ℝ) :
    (mkAbsorption blob target r).blob = blob := rfl

theorem mkAbsorption_target (blob : Blob) (target : Target) (r : ℝ) :
    (mkAbsorption blob target r).target = target := rfl

theorem mec2_pos : 0 < mec2 := by norm_num [mec2, m_e, c]

theorem l_max_cm_pos : 0 < l_max_cm := by norm_num [l_max_cm, pc_cm]

theorem epsilon1_nonneg {z nu : ℝ} (hz : 0 ≤ z) (hnu : 0 ≤ nu) :
    0 ≤ epsilon1 z nu := by
  rw [epsilon1]
  have h1 : (0:ℝ) < h_planck := by norm_num [h_planck]
  have h2 := mec2_pos
  positivity

theorem linspace_pm_one_sq_le {n : ℕ} {x : ℝ} (hx : x ∈ linspace (-1) 1 n) :
    x ^ 2 ≤ 1 := by
  have h := linspace_mem (by norm_num) hx
  nlinarith [h.1, h.2]

theorem instance_l_chain {r : ℝ} (hr0 : 0 < r) (hr : r ≤ l_max_cm) (n : ℕ) :
    List.Chain' (· ≤ ·) (logspace (Real.logb 10 r) (Real.logb 10 l_max_cm) n) := by
  apply logspace_chain_le
  exact Real.logb_le_logb_of_le (by norm_num) hr0 hr

theorem instance_l_pairwise {r : ℝ} (hr0 : 0 < r) (hr : r < l_max_cm) (n : ℕ) :
    List.Pairwise (· < ·) (logspace (Real.logb 10 r) (Real.logb 10 l_max_cm) n) := by
  apply logspace_pairwise_lt
  exact Real.logb_lt_logb (by norm_num) hr0 hr

/-! ### Sub-threshold zero lemmas -/

theorem shell_integrand_zero_of_small {mu_s R_line epsilon_line e1 lv phiv muv : ℝ}
    (hmus : mu_s ^ 2 ≤ 1) (hmuv : muv ^ 2 ≤ 1) (he1 : 0 ≤ e1)
    (hel : 0 ≤ epsilon_line) (hsmall : e1 * epsilon_line < 1) :
    shell_integrand mu_s R_line epsilon_line e1 lv phiv muv = 0 := by
  rw [shell_integrand]
  have hms : (mu_star muv R_line lv) ^ 2 ≤ 1 := mu_star_sq_le_one hmuv
  have hcps := abs_le.mp (@abs_cos_psi_le_one mu_s (mu_star muv R_line lv) phiv hmus hms)
  have hprod : 0 ≤ e1 * epsilon_line := mul_nonneg he1 hel
  have hs : e1 * epsilon_line * (1 - cos_psi mu_s (mu_star muv R_line lv) phiv) / 2 < 1 := by
    nlinarith [hcps.1, hcps.2]
  rw [sigmaVal_of_lt hs]
  ring

theorem ring_integrand_zero_of_small {mu_s R_dt epsilon_dt e1 lv phiv : ℝ}
    (hmus : mu_s ^ 2 ≤ 1) (he1 : 0 ≤ e1)
    (hed : 0 ≤ epsilon_dt) (hsmall : e1 * epsilon_dt < 1) :
    ring_integrand mu_s R_dt epsilon_dt e1 lv phiv = 0 := by
  rw [ring_integrand]
  have hm : (lv / x_re_ring R_dt lv) ^ 2 ≤ 1 := ring_mu_sq_le_one _ _
  have hcps := abs_le.mp (@abs_cos_psi_le_one mu_s (lv / x_re_ring R_dt lv) phiv hmus hm)
  have hprod : 0 ≤ e1 * epsilon_dt := mul_nonneg he1 hed
  have hs : e1 * epsilon_dt * (1 - cos_psi mu_s (lv / x_re_ring R_dt lv) phiv) / 2 < 1 := by
    nlinarith [hcps.1, hcps.2]
  rw [sigmaVal_of_lt hs]
  ring

theorem shell_integral_zero_of_small (A : Absorption) (sh : SphericalShellBLR) (e1 : ℝ)
    (hmus : A.blob.mu_s ^ 2 ≤ 1) (hmu : ∀ x ∈ A.mu, x ^ 2 ≤ 1) (he1 : 0 ≤ e1)
    (hel : 0 ≤ sh.epsilon_line) (hsmall : e1 * sh.epsilon_line < 1) :
    shell_integral A sh e1 = 0 := by
  rw [shell_integral]
  apply trapzF_eq_zero
  intro lv _
  apply trapzF_eq_zero
  intro phiv _
  apply trapzF_eq_zero
  intro muv hmuv
  exact shell_integrand_zero_of_small hmus (hmu muv hmuv) he1 hel hsmall

/-! ### Elementwise forms of the shell and ring opacities -/

theorem opacity_shell_getD (A : Absorption) (sh : SphericalShellBLR) {nu : List ℝ}
    {k : ℕ} (hk : k < nu.length) :
    (opacity_shell_blr A sh nu).getD k 0 =
      sh.xi_line * sh.L_disk / ((4 * Real.pi) ^ 2 * sh.epsilon_line * m_e * c ^ 3) *
        shell_integral A sh (epsilon1 A.blob.z (nu.getD k 0)) := by
  rw [opacity_shell_blr, getD_map _ hk]

theorem opacity_ring_getD (A : Absorption) (rt : RingDustTorus) {nu : List ℝ}
    {k : ℕ} (hk : k < nu.length) :
    (opacity_ring_torus A rt nu).getD k 0 =
      rt.xi_dt * rt.L_disk / ((4 * Real.pi) ^ 2 * rt.epsilon_dt * m_e * c ^ 3) *
        ring_integral A rt (epsilon1 A.blob.z (nu.getD k 0)) := by
  rw [opacity_ring_torus, getD_map _ hk]

theorem sigmaRaw_one : sigmaRaw 1 = 0 := by
  rw [sigmaRaw_eq]
  norm_num [Real.sqrt_zero, Real.log_one]

theorem continuousAt_sigmaRaw_one : ContinuousAt sigmaRaw 1 := by
  have hBc : ContinuousAt (fun s : ℝ => Real.sqrt (1 - s⁻¹)) 1 :=
    (continuousAt_const.sub (continuousAt_inv₀ one_ne_zero)).sqrt
  have hB1 : Real.sqrt (1 - (1:ℝ)⁻¹) = 0 := by norm_num
  have hQc : ContinuousAt
      (fun s : ℝ => (1 + Real.sqrt (1 - s⁻¹)) / (1 - Real.sqrt (1 - s⁻¹))) 1 := by
    apply ContinuousAt.div (continuousAt_const.add hBc) (continuousAt_const.sub hBc)
    rw [hB1]
    norm_num
  have hlogc : ContinuousAt
      (fun s : ℝ => Real.log ((1 + Real.sqrt (1 - s⁻¹)) / (1 - Real.sqrt (1 - s⁻¹)))) 1 := by
    apply ContinuousAt.log hQc
    rw [hB1]
    norm_num
  have hBp2 : ContinuousAt (fun s : ℝ => Real.sqrt (1 - s⁻¹) ^ 2) 1 := hBc.pow 2
  have hBp4 : ContinuousAt (fun s : ℝ => Real.sqrt (1 - s⁻¹) ^ 4) 1 := hBc.pow 4
  show ContinuousAt (fun s : ℝ =>
    3 / 16 * sigma_T * (1 - Real.sqrt (1 - s⁻¹) ^ 2) *
      ((3 - Real.sqrt (1 - s⁻¹) ^ 4) *
          Real.log ((1 + Real.sqrt (1 - s⁻¹)) / (1 - Real.sqrt (1 - s⁻¹))) +
        -2 * Real.sqrt (1 - s⁻¹) * (2 - Real.sqrt (1 - s⁻¹) ^ 2))) 1
  exact (continuousAt_const.mul (continuousAt_const.sub hBp2)).mul
    (((continuousAt_const.sub hBp4).mul hlogc).add
      ((continuousAt_const.mul hBc).mul (continuousAt_const.sub hBp2)))

theorem sigmaVal_eventuallyEq : sigmaVal =ᶠ[nhds (1:ℝ)] sigmaRaw := by
  apply Filter.eventuallyEq_of_mem (isOpen_Ioi.mem_nhds (by norm_num : (0:ℝ) < 1))
  intro s hs
  rcases lt_or_le s 1 with h | h
  · rw [sigmaVal_of_lt h, sigmaRaw_of_mem_Ioo hs h]
  · exact sigmaVal_of_le h

/-! ## Claims -/

/-- C3: for every array element `s` of the input to `sigma`: if `s < 1`
the returned element is exactly zero, and if `s ≥ 1` it equals
`(3/16) σ_T (1-β²) [(3-β⁴) ln((1+β)/(1-β)) - 2β(2-β²)]` with
`β = sqrt(1 - 1/s)`. -/
theorem sigma_elementwise_formula (xs : List ℝ) (i : ℕ) (h : i < xs.length) :
    (xs.getD i 0 < 1 → (sigma_arr xs).getD i 0 = 0) ∧
    (1 ≤ xs.getD i 0 →
      (sigma_arr xs).getD i 0 =
        3 / 16 * sigma_T * (1 - Real.sqrt (1 - 1 / xs.getD i 0) ^ 2) *
          ((3 - Real.sqrt (1 - 1 / xs.getD i 0) ^ 4) *
              Real.log ((1 + Real.sqrt (1 - 1 / xs.getD i 0)) /
                (1 - Real.sqrt (1 - 1 / xs.getD i 0))) -
            2 * Real.sqrt (1 - 1 / xs.getD i 0) *
              (2 - Real.sqrt (1 - 1 / xs.getD i 0) ^ 2))) := by
  rw [sigma_arr_eq_map, getD_map sigmaVal h]
  constructor
  · intro hlt
    exact sigmaVal_of_lt hlt
  · intro hge
    rw [sigmaVal_of_le hge, sigmaRaw_eq]
    simp only [one_div]
    ring

/-- witness for C3 at the concrete inputs `[0.5]` (sub-threshold) and
`[4]` (above threshold). -/
theorem sigma_elementwise_formula_witness :
    ((1:ℝ)/2 < 1 ∧ (sigma_arr [(1:ℝ)/2]).getD 0 0 = 0) ∧
    (1 ≤ (4:ℝ) ∧ (sigma_arr [(4:ℝ)]).getD 0 0 =
      3 / 16 * sigma_T * (1 - Real.sqrt (1 - 1 / 4) ^ 2) *
        ((3 - Real.sqrt (1 - 1 / 4) ^ 4) *
            Real.log ((1 + Real.sqrt (1 - 1 / 4)) / (1 - Real.sqrt (1 - 1 / 4))) -
          2 * Real.sqrt (1 - 1 / 4) * (2 - Real.sqrt (1 - 1 / 4) ^ 2))) :=
  ⟨⟨by norm_num, (sigma_elementwise_formula [(1:ℝ)/2] 0 (by norm_num)).1 (by norm_num)⟩,
   ⟨by norm_num, (sigma_elementwise_formula [(4:ℝ)] 0 (by norm_num)).2 (by norm_num)⟩⟩

/-- C5: for every `s ≥ 1` the cross-section value is non-negative, at the
threshold `s = 1` it is exactly `0`, and the per-element cross-section
function is continuous at `s = 1`, joining the sub-threshold zero branch. -/
theorem sigma_threshold_props :
    (∀ s : ℝ, 1 ≤ s → 0 ≤ sigmaVal s) ∧ sigmaVal 1 = 0 ∧ ContinuousAt sigmaVal 1 := by
  refine ⟨fun s hs => ?_, ?_, ?_⟩
  · rw [sigmaVal_of_le hs]
    exact sigmaRaw_nonneg hs
  · rw [sigmaVal_of_le le_rfl]
    exact sigmaRaw_one
  · exact continuousAt_sigmaRaw_one.congr sigmaVal_eventuallyEq.symm

/-- witness for C5 at the concrete input `s = 2`. -/
theorem sigma_threshold_props_witness : (1:ℝ) ≤ 2 ∧ 0 ≤ sigmaVal 2 :=
  ⟨by norm_num, sigma_threshold_props.1 2 (by norm_num)⟩

/-- C9 counterexample: `sigma` on scalar inputs returns normally instead
of raising — at `s = 4` it returns the closed-form scalar value, and at
`s = 1/2` the `values[True] = 0` assignment on the 0-d `Quantity` succeeds
and it returns the scalar `0`.  The claim that every scalar input raises
an exception is false. -/
theorem sigma_scalar_counterexample :
    sigma (NpVal.scalar 4) = NpVal.scalar (sigmaRaw 4) ∧
    sigma (NpVal.scalar (1/2)) = NpVal.scalar 0 := by
  constructor
  · show NpVal.scalar (if (4:ℝ) < 1 then 0 else sigmaRaw 4) = NpVal.scalar (sigmaRaw 4)
    rw [if_neg (by norm_num)]
  · show NpVal.scalar (if (1:ℝ)/2 < 1 then 0 else sigmaRaw (1/2)) = NpVal.scalar 0
    rw [if_pos (by norm_num)]

/-- C9 amended: `sigma` accepts scalar (0-dimensional) inputs as well as
arrays: because `sigma_T` is a `Quantity`, `values` is ndarray-backed even
for a Python-float input, and the boolean-mask item assignment
`values[s < 1] = 0` works on the 0-d value (`True` assigns the single
element, `False` is a no-op).  A scalar input therefore returns a scalar
carrying the same piecewise value as a single array element, and array
inputs return the elementwise piecewise values. -/
theorem sigma_scalar_returns :
    (∀ x : ℝ, sigma (NpVal.scalar x) = NpVal.scalar (sigmaVal x)) ∧
    (∀ xs : List ℝ, sigma (NpVal.arr xs) = NpVal.arr (xs.map sigmaVal)) :=
  ⟨fun _ => rfl,
   fun xs => by
    show NpVal.arr (sigma_arr xs) = NpVal.arr (xs.map sigmaVal)
    rw [sigma_arr_eq_map]⟩

/-- C8 counterexample: with the aligned first direction (`μ₁ = 1`), the
other angle cosine `μ₂ = 0 ∈ [-1, 1]` and azimuth `φ = 0 ∈ [0, 2π]`, the
scattering-angle cosine is `0`, not `1`. -/
theorem cos_psi_aligned_counterexample : cos_psi 1 0 0 = 0 ∧ (0:ℝ) ≠ 1 := by
  constructor
  · rw [cos_psi, show (1:ℝ) - 1 ^ 2 = 0 by norm_num, Real.sqrt_zero]
    ring
  · norm_num

/-- C8 amended: for `μ₁ = 1` (aligned), the scattering-angle cosine equals
the other direction's cosine `μ₂` exactly, independent of the azimuth; in
particular it equals 1 exactly when the other cosine is also 1. -/
theorem cos_psi_aligned : ∀ (mu phi : ℝ), cos_psi 1 mu phi = mu := by
  intro mu phi
  rw [cos_psi, show (1:ℝ) - 1 ^ 2 = 0 by norm_num, Real.sqrt_zero]
  ring

/-- C10: each grid setter modifies only its own grid array and size: the
other two grids and sizes, and the `blob`, `target` and `r` fields, are
unchanged by any single setter call. -/
theorem setters_frame (A : Absorption) (n : ℕ) :
    ((A.set_mu n).phi = A.phi ∧ (A.set_mu n).phi_size = A.phi_size ∧
      (A.set_mu n).l = A.l ∧ (A.set_mu n).l_size = A.l_size ∧
      (A.set_mu n).blob = A.blob ∧ (A.set_mu n).target = A.target ∧
      (A.set_mu n).r = A.r) ∧
    ((A.set_phi n).mu = A.mu ∧ (A.set_phi n).mu_size = A.mu_size ∧
      (A.set_phi n).l = A.l ∧ (A.set_phi n).l_size = A.l_size ∧
      (A.set_phi n).blob = A.blob ∧ (A.set_phi n).target = A.target ∧
      (A.set_phi n).r = A.r) ∧
    ((A.set_l n).mu = A.mu ∧ (A.set_l n).mu_size = A.mu_size ∧
      (A.set_l n).phi = A.phi ∧ (A.set_l n).phi_size = A.phi_size ∧
      (A.set_l n).blob = A.blob ∧ (A.set_l n).target = A.target ∧
      (A.set_l n).r = A.r) :=
  ⟨⟨rfl, rfl, rfl, rfl, rfl, rfl, rfl⟩,
   ⟨rfl, rfl, rfl, rfl, rfl, rfl, rfl⟩,
   ⟨rfl, rfl, rfl, rfl, rfl, rfl, rfl⟩⟩

/-- the grid invariant of C6, for one instance and requested sizes
`n`, `m`, `k`: sample counts, exact endpoints, even spacing of the `mu`
and `phi` grids, the `l` grid starting at `r`, strictly increasing, and
ending at 3000 pc; plus the fact that construction produces exactly the
grids of the three setter calls at the default sizes 100, 50, 10. -/
def GridsOK (A : Absorption) (n m k : ℕ) : Prop :=
  ((A.set_mu n).mu_size = n ∧ (A.set_mu n).mu.length = n ∧
    (A.set_mu n).mu.head? = some (-1) ∧ (A.set_mu n).mu.getLast? = some 1 ∧
    (∀ i, i + 1 < n →
      (A.set_mu n).mu.getD (i + 1) 0 - (A.set_mu n).mu.getD i 0 = 2 / ((n : ℝ) - 1))) ∧
  ((A.set_phi m).phi_size = m ∧ (A.set_phi m).phi.length = m ∧
    (A.set_phi m).phi.head? = some 0 ∧
    (A.set_phi m).phi.getLast? = some (2 * Real.pi) ∧
    (∀ i, i + 1 < m →
      (A.set_phi m).phi.getD (i + 1) 0 - (A.set_phi m).phi.getD i 0 =
        2 * Real.pi / ((m : ℝ) - 1))) ∧
  ((A.set_l k).l_size = k ∧ (A.set_l k).l.length = k ∧
    (A.set_l k).l.head? = some A.r ∧ (A.set_l k).l.getLast? = some l_max_cm ∧
    List.Pairwise (· < ·) (A.set_l k).l) ∧
  (∀ blob target, (mkAbsorption blob target A.r).mu = (A.set_mu 100).mu ∧
    (mkAbsorption blob target A.r).phi = (A.set_phi 50).phi ∧
    (mkAbsorption blob target A.r).l = (A.set_l 10).l)

/-- C6 counterexample: a setter call with a single sample breaks the
invariant as claimed: after `set_mu 1` the grid is `[-1]`, whose last
element is `-1`, not `1` (the claim states no size precondition, only one
on `r`). -/
theorem grids_counterexample :
    ((mkAbsorption ⟨0, 0⟩ Target.unsupported 1).set_mu 1).mu.getLast? = some (-1) ∧
    some ((-1 : ℝ)) ≠ some (1 : ℝ) := by
  constructor
  · show (linspace (-1) 1 1).getLast? = some (-1)
    rw [linspace, show List.range 1 = [0] from rfl, List.map_cons, List.map_nil,
      List.getLast?_singleton]
    norm_num
  · simp only [ne_eq, Option.some.injEq]
    norm_num

/-- C6 amended: the claimed grid invariant holds after construction and
after every setter call whose requested size is at least 2 (the defaults
100, 50, 10 qualify); with a single sample the grid degenerates to its
start point, and the claim's endpoint clause fails. -/
theorem grids_invariant (A : Absorption) (hr0 : 0 < A.r) (hr : A.r < l_max_cm)
    (n m k : ℕ) (hn : 2 ≤ n) (hm : 2 ≤ m) (hk : 2 ≤ k) :
    GridsOK A n m k := by
  refine ⟨⟨rfl, linspace_length _ _ _, linspace_head _ _ (by omega),
      linspace_getLast _ _ hn, fun i hi => ?_⟩,
    ⟨rfl, linspace_length _ _ _, linspace_head _ _ (by omega),
      linspace_getLast _ _ hm, fun i hi => ?_⟩,
    ⟨rfl, logspace_length _ _ _, ?_, ?_, instance_l_pairwise hr0 hr k⟩,
    fun blob target => ⟨rfl, rfl, rfl⟩⟩
  · show (linspace (-1) 1 n).getD (i + 1) 0 - (linspace (-1) 1 n).getD i 0 = 2 / ((n : ℝ) - 1)
    rw [linspace_step _ _ hi]
    norm_num
  · show (linspace 0 (2 * Real.pi) m).getD (i + 1) 0 - (linspace 0 (2 * Real.pi) m).getD i 0 =
      2 * Real.pi / ((m : ℝ) - 1)
    rw [linspace_step _ _ hi]
    norm_num
  · show (logspace (Real.logb 10 A.r) (Real.logb 10 l_max_cm) k).head? = some A.r
    rw [logspace_head (by omega), Real.rpow_logb (by norm_num) (by norm_num) hr0]
  · show (logspace (Real.logb 10 A.r) (Real.logb 10 l_max_cm) k).getLast? = some l_max_cm
    rw [logspace_getLast hk, Real.rpow_logb (by norm_num) (by norm_num) l_max_cm_pos]

/-- witness for C6 at a concrete instance with `r = 1` cm and requested
sizes 2, 2, 2. -/
theorem grids_invariant_witness :
    (0 : ℝ) < 1 ∧ (1 : ℝ) < l_max_cm ∧
      GridsOK (mkAbsorption ⟨0, 0⟩ Target.unsupported 1) 2 2 2 :=
  ⟨by norm_num, by norm_num [l_max_cm, pc_cm],
    grids_invariant _ (by show (0:ℝ) < 1; norm_num)
      (by show (1:ℝ) < l_max_cm; norm_num [l_max_cm, pc_cm])
      2 2 2 (by norm_num) (by norm_num) (by norm_num)⟩

/-- C2 counterexample: `tau` on an instance whose target is none of the
three supported variants returns normally with Python's `None` — it is
not surfaced as an error (`Except.ok none`, not `Except.error _`). -/
theorem tau_unsupported_counterexample :
    (mkAbsorption ⟨0, 0⟩ Target.unsupported 1).tau (fun _ => 0) (fun _ => 0) [1] =
      Except.ok none := rfl

/-- C2 amended: when `tau` is invoked on an instance whose target is not
one of the three supported variants, every `isinstance` test fails and the
method falls through, returning `None` (no optical-depth array, and also
no raised error). -/
theorem tau_unsupported_returns_none (g gl : ℕ → ℝ) (A : Absorption)
    (h : A.target = Target.unsupported) (nu : List ℝ) :
    A.tau g gl nu = Except.ok none := by
  obtain ⟨blob, target, r, a1, a2, a3, a4, a5, a6⟩ := A
  have h' : target = Target.unsupported := h
  subst h'
  rfl

/-- witness for C2 at a concrete instance. -/
theorem tau_unsupported_returns_none_witness :
    (mkAbsorption ⟨0, 1⟩ Target.unsupported 2).target = Target.unsupported ∧
      (mkAbsorption ⟨0, 1⟩ Target.unsupported 2).tau (fun _ => 1) (fun _ => 1) [2] =
        Except.ok none :=
  ⟨rfl, tau_unsupported_returns_none _ _ _ rfl _⟩

/-- C7 counterexample: for a frequency far below the pair-production
threshold every `s` on the grid is below 1, the cross section vanishes
identically, and the optical depth is `[0]` for `xi_line = 1/10` and for
`xi_line = 2/10` alike — increasing the fraction does not strictly
increase the output elements.  The shell radius is `R_line = 1/2 < r = 1`,
so every path-length grid point satisfies `l ≥ r > R_line ≥ R_line μ` and
`x_re_shell > 0` throughout: no grid point hits the `x = 0` singularity
where the numpy evaluation would be nan. -/
theorem tau_xi_counterexample :
    (mkAbsorption ⟨0, 1/2⟩ (Target.shell ⟨1/10, 1, 1/2, 1/100000⟩) 1).tau
        (fun _ => 0) (fun _ => 0) [1] = Except.ok (some [0]) ∧
    (mkAbsorption ⟨0, 1/2⟩ (Target.shell ⟨2/10, 1, 1/2, 1/100000⟩) 1).tau
        (fun _ => 0) (fun _ => 0) [1] = Except.ok (some [0]) := by
  have key : ∀ xi : ℝ,
      (mkAbsorption ⟨0, 1/2⟩ (Target.shell ⟨xi, 1, 1/2, 1/100000⟩) 1).tau
        (fun _ => 0) (fun _ => 0) [1] = Except.ok (some [0]) := by
    intro xi
    have hint : shell_integral (mkAbsorption ⟨0, 1/2⟩ (Target.shell ⟨xi, 1, 1/2, 1/100000⟩) 1)
        ⟨xi, 1, 1/2, 1/100000⟩ (epsilon1 0 1) = 0 := by
      apply shell_integral_zero_of_small
      · show ((1:ℝ)/2) ^ 2 ≤ 1
        norm_num
      · intro x hx
        exact linspace_pm_one_sq_le hx
      · exact epsilon1_nonneg le_rfl zero_le_one
      · show (0:ℝ) ≤ 1/100000
        norm_num
      · show epsilon1 0 1 * (1/100000) < 1
        rw [epsilon1, mec2, h_planck, m_e, c]
        norm_num
    show Except.ok (some (opacity_shell_blr
        (mkAbsorption ⟨0, 1/2⟩ (Target.shell ⟨xi, 1, 1/2, 1/100000⟩) 1)
        ⟨xi, 1, 1/2, 1/100000⟩ [1])) = Except.ok (some [0])
    rw [opacity_shell_blr]
    rw [List.map_cons, List.map_nil]
    rw [show epsilon1 (mkAbsorption ⟨0, 1/2⟩
        (Target.shell ⟨xi, 1, 1/2, 1/100000⟩) 1).blob.z 1 = epsilon1 0 1 from rfl]
    rw [hint, mul_zero]
  exact ⟨key (1/10), key (2/10)⟩

theorem opacity_shell_getD_mk (blob : Blob) (r : ℝ) (sh : SphericalShellBLR)
    {nu : List ℝ} {k : ℕ} (hk : k < nu.length) :
    (opacity_shell_blr (mkAbsorption blob (Target.shell sh) r) sh nu).getD k 0 =
      sh.xi_line * (sh.L_disk / ((4 * Real.pi) ^ 2 * sh.epsilon_line * m_e * c ^ 3) *
        shell_integral (mkAbsorption blob (Target.shell sh) r) sh
          (epsilon1 blob.z (nu.getD k 0))) := by
  rw [opacity_shell_getD _ _ hk,
    show (mkAbsorption blob (Target.shell sh) r).blob.z = blob.z from rfl]
  ring

theorem opacity_ring_getD_mk (blob : Blob) (r : ℝ) (rt : RingDustTorus)
    {nu : List ℝ} {k : ℕ} (hk : k < nu.length) :
    (opacity_ring_torus (mkAbsorption blob (Target.ring rt) r) rt nu).getD k 0 =
      rt.xi_dt * (rt.L_disk / ((4 * Real.pi) ^ 2 * rt.epsilon_dt * m_e * c ^ 3) *
        ring_integral (mkAbsorption blob (Target.ring rt) r) rt
          (epsilon1 blob.z (nu.getD k 0))) := by
  rw [opacity_ring_getD _ _ hk,
    show (mkAbsorption blob (Target.ring rt) r).blob.z = blob.z from rfl]
  ring

/-- the amended monotonicity statement of C7 for one shell pair and one
ring pair differing only in the luminosity fraction: the anchor equations
tie the lists to `tau`; each element never decreases when the fraction
grows, and it strictly increases exactly when the larger-fraction element
is nonzero. -/
def XiMonotoneProp (blob : Blob) (r xi1 xi2 Ld Rl el Rd ed : ℝ)
    (nu : List ℝ) (k : ℕ) : Prop :=
  ((mkAbsorption blob (Target.shell ⟨xi1, Ld, Rl, el⟩) r).tau (fun _ => 0) (fun _ => 0) nu =
      Except.ok (some (opacity_shell_blr
        (mkAbsorption blob (Target.shell ⟨xi1, Ld, Rl, el⟩) r) ⟨xi1, Ld, Rl, el⟩ nu)) ∧
    (opacity_shell_blr (mkAbsorption blob (Target.shell ⟨xi1, Ld, Rl, el⟩) r)
        ⟨xi1, Ld, Rl, el⟩ nu).getD k 0 ≤
      (opacity_shell_blr (mkAbsorption blob (Target.shell ⟨xi2, Ld, Rl, el⟩) r)
        ⟨xi2, Ld, Rl, el⟩ nu).getD k 0 ∧
    ((opacity_shell_blr (mkAbsorption blob (Target.shell ⟨xi1, Ld, Rl, el⟩) r)
        ⟨xi1, Ld, Rl, el⟩ nu).getD k 0 <
      (opacity_shell_blr (mkAbsorption blob (Target.shell ⟨xi2, Ld, Rl, el⟩) r)
        ⟨xi2, Ld, Rl, el⟩ nu).getD k 0 ↔
      0 < (opacity_shell_blr (mkAbsorption blob (Target.shell ⟨xi2, Ld, Rl, el⟩) r)
        ⟨xi2, Ld, Rl, el⟩ nu).getD k 0)) ∧
  ((mkAbsorption blob (Target.ring ⟨xi1, Ld, Rd, ed⟩) r).tau (fun _ => 0) (fun _ => 0) nu =
      Except.ok (some (opacity_ring_torus
        (mkAbsorption blob (Target.ring ⟨xi1, Ld, Rd, ed⟩) r) ⟨xi1, Ld, Rd, ed⟩ nu)) ∧
    (opacity_ring_torus (mkAbsorption blob (Target.ring ⟨xi1, Ld, Rd, ed⟩) r)
        ⟨xi1, Ld, Rd, ed⟩ nu).getD k 0 ≤
      (opacity_ring_torus (mkAbsorption blob (Target.ring ⟨xi2, Ld, Rd, ed⟩) r)
        ⟨xi2, Ld, Rd, ed⟩ nu).getD k 0 ∧
    ((opacity_ring_torus (mkAbsorption blob (Target.ring ⟨xi1, Ld, Rd, ed⟩) r)
        ⟨xi1, Ld, Rd, ed⟩ nu).getD k 0 <
      (opacity_ring_torus (mkAbsorption blob (Target.ring ⟨xi2, Ld, Rd, ed⟩) r)
        ⟨xi2, Ld, Rd, ed⟩ nu).getD k 0 ↔
      0 < (opacity_ring_torus (mkAbsorption blob (Target.ring ⟨xi2, Ld, Rd, ed⟩) r)
        ⟨xi2, Ld, Rd, ed⟩ nu).getD k 0))

/-- C7 amended: holding everything else fixed, increasing `xi_line` (shell)
or `xi_dt` (ring) never decreases any element of the optical-depth array,
and strictly increases exactly those elements that are nonzero; strictness
for every element fails in general (see the counterexample), because each
element scales linearly in the fraction with a non-negative coefficient.
The shell statement is restricted to `0 ≤ R_line < r`: then every grid
point has `l ≥ r > R_line μ` and `x_re_shell > 0`, keeping the real-number
embedding away from the `x = 0` point where `mu_star` is 0/0 and the numpy
evaluation is nan (the ring case has `x_re_ring > 0` automatically, since
every log-spaced `l` is positive). -/
theorem tau_xi_monotone (blob : Blob) (hmus : blob.mu_s ^ 2 ≤ 1)
    (r : ℝ) (hr0 : 0 < r) (hr : r < l_max_cm)
    (xi1 xi2 : ℝ) (hxi0 : 0 ≤ xi1) (hxi : xi1 < xi2)
    (Ld Rl el Rd ed : ℝ) (hLd : 0 ≤ Ld) (hel : 0 < el) (hed : 0 < ed)
    (hRl0 : 0 ≤ Rl) (hRlr : Rl < r)
    (nu : List ℝ) (k : ℕ) (hk : k < nu.length) :
    XiMonotoneProp blob r xi1 xi2 Ld Rl el Rd ed nu k := by
  have hme : (0:ℝ) < m_e := by norm_num [m_e]
  have hc : (0:ℝ) < c := by norm_num [c]
  have hpi := Real.pi_pos
  have hmuA : ∀ x ∈ linspace (-1) 1 100, x ^ 2 ≤ 1 := fun x hx => linspace_pm_one_sq_le hx
  have hmuc : List.Chain' (· ≤ ·) (linspace (-1) 1 100) :=
    linspace_chain_le (by norm_num) 100
  have hphic : List.Chain' (· ≤ ·) (linspace 0 (2 * Real.pi) 50) :=
    linspace_chain_le (by positivity) 50
  have hlc : List.Chain' (· ≤ ·)
      (logspace (Real.logb 10 r) (Real.logb 10 l_max_cm) 10) :=
    instance_l_chain hr0 hr.le 10
  constructor
  · -- shell part
    have hD : (0:ℝ) < (4 * Real.pi) ^ 2 * el * m_e * c ^ 3 := by positivity
    have hI0 : 0 ≤ shell_integral
        (mkAbsorption blob (Target.shell ⟨xi1, Ld, Rl, el⟩) r) ⟨xi1, Ld, Rl, el⟩
        (epsilon1 blob.z (nu.getD k 0)) := by
      apply shell_integral_nonneg
      · exact hmus
      · exact fun x hx => hmuA x hx
      · exact hmuc
      · exact hphic
      · exact hlc
    have ht1 : (opacity_shell_blr (mkAbsorption blob (Target.shell ⟨xi1, Ld, Rl, el⟩) r)
        ⟨xi1, Ld, Rl, el⟩ nu).getD k 0 =
        xi1 * (Ld / ((4 * Real.pi) ^ 2 * el * m_e * c ^ 3) *
          shell_integral (mkAbsorption blob (Target.shell ⟨xi1, Ld, Rl, el⟩) r)
            ⟨xi1, Ld, Rl, el⟩ (epsilon1 blob.z (nu.getD k 0))) := by
      rw [opacity_shell_getD_mk blob r ⟨xi1, Ld, Rl, el⟩ hk]
    have ht2 : (opacity_shell_blr (mkAbsorption blob (Target.shell ⟨xi2, Ld, Rl, el⟩) r)
        ⟨xi2, Ld, Rl, el⟩ nu).getD k 0 =
        xi2 * (Ld / ((4 * Real.pi) ^ 2 * el * m_e * c ^ 3) *
          shell_integral (mkAbsorption blob (Target.shell ⟨xi1, Ld, Rl, el⟩) r)
            ⟨xi1, Ld, Rl, el⟩ (epsilon1 blob.z (nu.getD k 0))) := by
      rw [opacity_shell_getD_mk blob r ⟨xi2, Ld, Rl, el⟩ hk]
      rfl
    set Cv := Ld / ((4 * Real.pi) ^ 2 * el * m_e * c ^ 3) *
      shell_integral (mkAbsorption blob (Target.shell ⟨xi1, Ld, Rl, el⟩) r)
        ⟨xi1, Ld, Rl, el⟩ (epsilon1 blob.z (nu.getD k 0)) with hCv
    have hC0 : 0 ≤ Cv := mul_nonneg (div_nonneg hLd hD.le) hI0
    refine ⟨rfl, ?_, ?_⟩
    · rw [ht1, ht2]
      exact mul_le_mul_of_nonneg_right hxi.le hC0
    · rw [ht1, ht2]
      rcases hC0.eq_or_lt with hCz | hCp
      · rw [← hCz]
        simp
      · constructor
        · intro _
          exact mul_pos (lt_of_le_of_lt hxi0 hxi) hCp
        · intro _
          exact mul_lt_mul_of_pos_right hxi hCp
  · -- ring part
    have hD : (0:ℝ) < (4 * Real.pi) ^ 2 * ed * m_e * c ^ 3 := by positivity
    have hI0 : 0 ≤ ring_integral
        (mkAbsorption blob (Target.ring ⟨xi1, Ld, Rd, ed⟩) r) ⟨xi1, Ld, Rd, ed⟩
        (epsilon1 blob.z (nu.getD k 0)) := by
      apply ring_integral_nonneg
      · exact hmus
      · exact hphic
      · exact hlc
    have ht1 : (opacity_ring_torus (mkAbsorption blob (Target.ring ⟨xi1, Ld, Rd, ed⟩) r)
        ⟨xi1, Ld, Rd, ed⟩ nu).getD k 0 =
        xi1 * (Ld / ((4 * Real.pi) ^ 2 * ed * m_e * c ^ 3) *
          ring_integral (mkAbsorption blob (Target.ring ⟨xi1, Ld, Rd, ed⟩) r)
            ⟨xi1, Ld, Rd, ed⟩ (epsilon1 blob.z (nu.getD k 0))) := by
      rw [opacity_ring_getD_mk blob r ⟨xi1, Ld, Rd, ed⟩ hk]
    have ht2 : (opacity_ring_torus (mkAbsorption blob (Target.ring ⟨xi2, Ld, Rd, ed⟩) r)
        ⟨xi2, Ld, Rd, ed⟩ nu).getD k 0 =
        xi2 * (Ld / ((4 * Real.pi) ^ 2 * ed * m_e * c ^ 3) *
          ring_integral (mkAbsorption blob (Target.ring ⟨xi1, Ld, Rd, ed⟩) r)
            ⟨xi1, Ld, Rd, ed⟩ (epsilon1 blob.z (nu.getD k 0))) := by
      rw [opacity_ring_getD_mk blob r ⟨xi2, Ld, Rd, ed⟩ hk]
      rfl
    set Cv := Ld / ((4 * Real.pi) ^ 2 * ed * m_e * c ^ 3) *
      ring_integral (mkAbsorption blob (Target.ring ⟨xi1, Ld, Rd, ed⟩) r)
        ⟨xi1, Ld, Rd, ed⟩ (epsilon1 blob.z (nu.getD k 0)) with hCv
    have hC0 : 0 ≤ Cv := mul_nonneg (div_nonneg hLd hD.le) hI0
    refine ⟨rfl, ?_, ?_⟩
    · rw [ht1, ht2]
      exact mul_le_mul_of_nonneg_right hxi.le hC0
    · rw [ht1, ht2]
      rcases hC0.eq_or_lt with hCz | hCp
      · rw [← hCz]
        simp
      · constructor
        · intro _
          exact mul_pos (lt_of_le_of_lt hxi0 hxi) hCp
        · intro _
          exact mul_lt_mul_of_pos_right hxi hCp

/-- witness for C7 at a concrete configuration. -/
theorem tau_xi_monotone_witness :
    (0 : ℝ) < 1 ∧ XiMonotoneProp ⟨0, 1/2⟩ 1 0 1 1 (1/2) 1 1 1 [1] 0 :=
  ⟨by norm_num,
    tau_xi_monotone ⟨0, 1/2⟩ (by norm_num) 1 (by norm_num)
      (by norm_num [l_max_cm, pc_cm]) 0 1 (by norm_num) (by norm_num)
      1 (1/2) 1 1 1 (by norm_num) (by norm_num) (by norm_num)
      (by norm_num) (by norm_num) [1] 0 (by norm_num)⟩

/-- C1: evaluation of the disk-target `tau` at a failing input.
`_opacity_disk` swaps its loop indices: inside the loop over path length
it writes `integrand_l[i]` (the frequency index) and after it writes
`integral[j]`, where `j` holds the final path-length index
`len(self.l) - 1 = 9`.  With the default grids and an input of 2
frequencies, `integral` has length 2 and the assignment `integral[9]`
raises IndexError — no element of the output receives its per-frequency
triple trapezoidal integral. -/
theorem tau_disk_indexerror :
    (mkAbsorption ⟨0, 1/2⟩
        (Target.disk ⟨1, 1, 1/10, fun _ => [1/2, 3/5], fun _ _ => 1, fun _ _ => 1⟩) 1).tau
      (fun _ => 0) (fun _ => 0) [1, 2] = Except.error "IndexError" := rfl

/-- C4: evaluation of the disk-target `tau` at a failing input with 10
frequencies (matching the default `l_size = 10`, so no IndexError is hit).
Because only `integral[9]` is ever assigned, the first entry of the buffer
is whatever `np.empty` left there — here the uninitialized value is taken
to be `-1` — and the first returned element is the prefactor
`3 L_disk R_g / (16 π η m_e c³)` times that garbage: a negative number,
not the non-negative per-frequency value the claim requires. -/
theorem tau_disk_garbage :
    Except.map (Option.map (fun t : List ℝ => t.getD 0 0))
        ((mkAbsorption ⟨0, 1/2⟩
            (Target.disk ⟨1, 1, 1/10, fun _ => [1/2, 3/5], fun _ _ => 1, fun _ _ => 1⟩) 1).tau
          (fun _ => -1) (fun _ => 0) [1, 2, 3, 4, 5, 6, 7, 8, 9, 10]) =
      Except.ok (some (3 * 1 * 1 / (16 * Real.pi * (1/10) * m_e * c ^ 3) * -1)) ∧
    3 * 1 * 1 / (16 * Real.pi * (1/10) * m_e * c ^ 3) * -1 < 0 := by
  constructor
  · rfl
  · have hme : (0:ℝ) < m_e := by norm_num [m_e]
    have hc : (0:ℝ) < c := by norm_num [c]
    have hpi := Real.pi_pos
    have hp : (0:ℝ) < 3 * 1 * 1 / (16 * Real.pi * (1/10) * m_e * c ^ 3) := by positivity
    nlinarith

end

end Agnpy
